import Mathlib

/-!
# Verification of the Trino Go client query engine

A shallow embedding, in Lean 4, of the core logic of `trino.go` from the
`trino-go-client` repository, together with theorems settling the frozen
claims about its specification.

Modelling conventions:
* Go strings handled character-wise (session header entries) are `List Char`;
  strings only compared for equality (encodings, error names) are `String`.
* Go `int64` fields are `Int`; byte payloads are `List Nat` (a byte value per
  element); channel/concurrency structure is modelled by explicit state
  passing (`foldl` over the arrival order) or by a small-step transition
  relation.
* External library calls (zstd, lz4, JSON decoding) are oracles: function
  parameters returning `Option`, so theorems quantify over their behaviour.
* The float64 backoff arithmetic of `Conn.roundTrip` is modelled over `ℚ`
  with `math.Phi` as an exact rational approximation; the truncation to
  integer nanoseconds performed by Go's `time.Duration` conversion is
  abstracted away.
-/

namespace Trino

/-! ## Connection headers and response-header ingestion (`Conn.roundTrip`, 200 branch) -/

/-- A header value, character by character (Go `string`). -/
abbrev HeaderValue := List Char

/-- `startsWith s p = true` iff `p` is a prefix of `s`; models Go
`strings.HasPrefix(s, p)`. -/
def startsWith : HeaderValue → HeaderValue → Bool
  | _, [] => true
  | [], _ :: _ => false
  | c :: cs, p :: ps => c = p && startsWith cs ps

/-- The key of a `k=v` session or prepared-statement entry: the characters
before the first `=`. -/
def sessionKey (e : HeaderValue) : HeaderValue :=
  e.takeWhile (fun c => c ≠ '=')

/-- The outbound connection headers mutated by response-header ingestion
(`Conn.httpHeaders`): `X-Trino-Catalog`, `X-Trino-Schema`, the repeatable
`X-Trino-Session` and `X-Trino-Prepared-Statement` entries. -/
structure ConnHeaders where
  catalog : Option HeaderValue
  schema : Option HeaderValue
  session : List HeaderValue
  prepared : List HeaderValue
deriving DecidableEq, Repr

/-- The response headers consulted by `Conn.roundTrip` on a 200 response.
`none` models Go's `Header.Get` returning the empty string.
`hasUnsupported` is true when `X-Trino-Set-Path` or `X-Trino-Set-Role`
is present. -/
structure RespHeaders where
  setCatalog : Option HeaderValue := none
  setSchema : Option HeaderValue := none
  addedPrepare : Option HeaderValue := none
  deallocatedPrepare : Option HeaderValue := none
  setSession : Option HeaderValue := none
  clearSession : Option HeaderValue := none
  hasUnsupported : Bool := false
deriving DecidableEq, Repr

/-- Response-header ingestion on a 200 response, in the order of
`Conn.roundTrip`: replace catalog/schema, append `Added-Prepare`, filter
`Deallocated-Prepare` by `name=` prefix, append `Set-Session`, filter
`Clear-Session` by `key=` prefix. -/
def ingestRespHeaders (c0 : ConnHeaders) (r : RespHeaders) : ConnHeaders :=
  let c1 := match r.setCatalog with
    | none => c0
    | some v => { c0 with catalog := some v }
  let c2 := match r.setSchema with
    | none => c1
    | some v => { c1 with schema := some v }
  let c3 := match r.addedPrepare with
    | none => c2
    | some v => { c2 with prepared := c2.prepared ++ [v] }
  let c4 := match r.deallocatedPrepare with
    | none => c3
    | some v => { c3 with prepared := c3.prepared.filter (fun e => !(startsWith e (v ++ ['=']))) }
  let c5 := match r.setSession with
    | none => c4
    | some v => { c4 with session := c4.session ++ [v] }
  match r.clearSession with
    | none => c5
    | some v => { c5 with session := c5.session.filter (fun e => !(startsWith e (v ++ ['=']))) }

/-- A 200 response carrying exactly `Set-Session: v`. -/
def setSessionResp (v : HeaderValue) : RespHeaders := { setSession := some v }

/-- A 200 response carrying exactly `Clear-Session: k`. -/
def clearSessionResp (k : HeaderValue) : RespHeaders := { clearSession := some k }

/-! ## The retry loop of `Conn.roundTrip` -/

/-- One event observed by the retry loop: either an HTTP response with a
status and response headers, a transport-level failure of `httpClient.Do`,
or the context becoming cancelled before the next attempt. -/
inductive RTEvent where
  | resp (status : Nat) (hdrs : RespHeaders)
  | netError
  | cancel
deriving DecidableEq, Repr

/-- The outcome of `Conn.roundTrip`. -/
inductive RTOutcome where
  | ok
  | ctxError
  | unsupportedHeader
  | transportError
  | queryFailed (status : Nat)
deriving DecidableEq, Repr

/-- The retry loop of `Conn.roundTrip`, driven by the event list: 200
ingests headers (then fails if an unsupported response header is present),
502/503/504 retries, a cancelled context surfaces the context error, any
other status is a query failure. `none` means the event list was exhausted
with the loop still running. -/
def roundTripRun (c : ConnHeaders) : List RTEvent → Option (RTOutcome × ConnHeaders)
  | [] => none
  | RTEvent.cancel :: _ => some (RTOutcome.ctxError, c)
  | RTEvent.netError :: _ => some (RTOutcome.transportError, c)
  | RTEvent.resp s h :: rest =>
    if s = 200 then
      let c2 := ingestRespHeaders c h
      if h.hasUnsupported then some (RTOutcome.unsupportedHeader, c2)
      else some (RTOutcome.ok, c2)
    else if s = 502 ∨ s = 503 ∨ s = 504 then
      roundTripRun c rest
    else
      some (RTOutcome.queryFailed s, c)

/-- `math.Phi` as a rational (the float64 constant, to double precision). -/
def phiQ : ℚ := 1.6180339887498949

/-- 100 ms in nanoseconds: the initial retry delay. -/
def initialDelayNs : ℚ := 100000000

/-- 15 s in nanoseconds: `maxDelayBetweenRequests`. -/
def maxDelayNs : ℚ := 15000000000

/-- The delay before the `n`-th retry (0-based): starts at 100 ms, then
`delay = min(delay * Phi, 15 s)` after each attempt. -/
def delayNs : Nat → ℚ
  | 0 => initialDelayNs
  | n + 1 => min (delayNs n * phiQ) maxDelayNs

/-! ## Statement configuration check (`driverStmt.exec`) -/

/-- `defaultSpoolingDownloadWorkers`. -/
def defaultSpoolingDownloadWorkers : Int := 5

/-- `defaultallowedOutOfOrder`. -/
def defaultallowedOutOfOrder : Int := 10

/-- The configuration check in `driverStmt.exec`: the statement fails iff
`st.spoolingWorkerCount > st.spoolingMaxOutOfOrderSegments`, where the Go
zero value 0 stands for an unset parameter. -/
def execSpoolingConfigError (workerCount maxOutOfOrder : Option Int) : Bool :=
  workerCount.getD 0 > maxOutOfOrder.getD 0

/-- Modelled from the spec: the claimed check, which compares the values
after applying the defaults (5 workers, bound 10) to unset parameters. -/
def specSpoolingConfigError (workerCount maxOutOfOrder : Option Int) : Bool :=
  workerCount.getD defaultSpoolingDownloadWorkers >
    maxOutOfOrder.getD defaultallowedOutOfOrder

/-- The defaulting done in `startSpoolingProtocolWorkers`, applied to the
stored (zero-if-unset) values only when the spooling pipeline starts. -/
def defaultedSpoolingWorkerCount (stored : Int) : Int :=
  if stored = 0 then defaultSpoolingDownloadWorkers else stored

/-- The defaulting of the reorder bound in `startSpoolingProtocolWorkers`. -/
def defaultedMaxOutOfOrderSegments (stored : Int) : Int :=
  if stored = 0 then defaultallowedOutOfOrder else stored

/-! ## Segment metadata and the codec layer (`decodeSegment`, `decompressSegment`) -/

/-- `segmentMetadata`: all fields are Go `int64`. -/
structure SegmentMetadata where
  rowOffset : Int
  rowsCount : Int
  segmentSize : Int
  uncompressedSize : Int
deriving DecidableEq, Repr

/-- The errors the codec layer can produce. -/
inductive SegmentError where
  | sizeMismatch (expected got : Int)
  | decompressFailure
  | unsupportedEncoding (encoding : String)
  | jsonDecodeFailure
deriving DecidableEq, Repr

/-- Oracles for the external libraries used by the codec layer: zstd
streaming decode, LZ4 block decompression (given the pre-sized destination
length `uncompressedSize`), and JSON row decoding. `none` is a library
error. -/
structure Codecs where
  zstdDecompress : List Nat → Option (List Nat)
  lz4Decompress : List Nat → Int → Option (List Nat)
  jsonDecodeRows : List Nat → Option (List (List Int))

/-- The `switch encoding` of `decompressSegment`, producing the
decompressed bytes before the size check. -/
def decompressRaw (cx : Codecs) (data : List Nat) (encoding : String)
    (m : SegmentMetadata) : Except SegmentError (List Nat) :=
  if encoding = "json+zstd" then
    match cx.zstdDecompress data with
    | some d => Except.ok d
    | none => Except.error SegmentError.decompressFailure
  else if encoding = "json+lz4" then
    match cx.lz4Decompress data m.uncompressedSize with
    | some d => Except.ok d
    | none => Except.error SegmentError.decompressFailure
  else Except.error (SegmentError.unsupportedEncoding encoding)

/-- `decompressSegment`: identity when `uncompressedSize == 0`, otherwise
decompress per encoding and check the decompressed length against
`uncompressedSize`. -/
def decompressSegment (cx : Codecs) (data : List Nat) (encoding : String)
    (m : SegmentMetadata) : Except SegmentError (List Nat) :=
  if m.uncompressedSize = 0 then Except.ok data
  else
    match decompressRaw cx data encoding m with
    | Except.error e => Except.error e
    | Except.ok d =>
      if (d.length : Int) ≠ m.uncompressedSize then
        Except.error (SegmentError.sizeMismatch m.uncompressedSize (d.length : Int))
      else Except.ok d

/-- `decodeSegment`: check the raw length against `segmentSize`, then
decompress, then JSON-decode the rows. -/
def decodeSegment (cx : Codecs) (data : List Nat) (encoding : String)
    (m : SegmentMetadata) : Except SegmentError (List (List Int)) :=
  if (data.length : Int) ≠ m.segmentSize then
    Except.error (SegmentError.sizeMismatch m.segmentSize (data.length : Int))
  else
    match decompressSegment cx data encoding m with
    | Except.error e => Except.error e
    | Except.ok d =>
      match cx.jsonDecodeRows d with
      | none => Except.error SegmentError.jsonDecodeFailure
      | some rows => Except.ok rows

/-- Whether a codec error is a size-mismatch error. -/
def SegmentError.isSizeMismatch : SegmentError → Bool
  | SegmentError.sizeMismatch _ _ => true
  | _ => false

/-- Whether a codec error is the unsupported-encoding error. -/
def SegmentError.isUnsupportedEncoding : SegmentError → Bool
  | SegmentError.unsupportedEncoding _ => true
  | _ => false

/-- Whether a codec result carries a size-mismatch error. -/
def resultIsSizeMismatch {α : Type} : Except SegmentError α → Bool
  | Except.error e => e.isSizeMismatch
  | Except.ok _ => false

/-- Whether a codec result carries the unsupported-encoding error. -/
def resultIsUnsupportedEncoding {α : Type} : Except SegmentError α → Bool
  | Except.error e => e.isUnsupportedEncoding
  | Except.ok _ => false

/-- A `Codecs` instance whose oracles always fail (used for concrete
counterexamples where no oracle is ever consulted). -/
def trivialCodecs : Codecs :=
  { zstdDecompress := fun _ => none
    lz4Decompress := fun _ _ => none
    jsonDecodeRows := fun _ => none }

/-! ## Server error mapping (`handleResponseError`) -/

/-- The structured server error (`ErrTrino`): the fields relevant to the
mapping. -/
structure ErrTrino where
  message : String
  errorName : String
  errorCode : Int
  errorType : String
deriving DecidableEq, Repr

/-- The result of mapping a decoded response's server-side error. -/
inductive ResponseError where
  | noError
  | queryCancelled
  | queryFailed (statusCode : Nat) (reason : ErrTrino)
deriving DecidableEq, Repr

/-- `handleResponseError`: switch on `respErr.ErrorName`. -/
def handleResponseError (status : Nat) (respErr : ErrTrino) : ResponseError :=
  if respErr.errorName = "" then ResponseError.noError
  else if respErr.errorName = "USER_CANCELLED" then ResponseError.queryCancelled
  else ResponseError.queryFailed status respErr

/-! ## Type signatures and the converter factory (`newTypeConverter`) -/

/-- A fully resolved type-signature argument. A `TYPE` argument carries a
nested signature (raw type plus arguments), a `NAMED_TYPE` additionally a
field name, a `LONG` an integer parameter, a `VARIABLE` nothing. -/
inductive TArg where
  | tSig (rawType : String) (arguments : List TArg)
  | tNamed (fieldName : String) (rawType : String) (arguments : List TArg)
  | tLong (value : Int)
  | tVar

/-- A fully resolved `typeSignature`. -/
structure TypeSignature where
  rawType : String
  arguments : List TArg

/-- Whether an argument has kind `LONG`. -/
def TArg.isLong : TArg → Bool
  | TArg.tLong _ => true
  | _ => false

/-- Helper for `getNestedTypes`: follow a single `TYPE`/`NAMED_TYPE`
argument chain, accumulating raw type names. -/
def nestedTypesAux : List String → String → List TArg → List String
  | types, raw, [TArg.tSig r as] => nestedTypesAux (types ++ [raw]) r as
  | types, raw, [TArg.tNamed _ r as] => nestedTypesAux (types ++ [raw]) r as
  | types, raw, _ => types ++ [raw]

/-- `getNestedTypes`: flatten the left spine of a signature. -/
def getNestedTypes (types : List String) (sig : TypeSignature) : List String :=
  nestedTypesAux types sig.rawType sig.arguments

/-- The scan types produced by `getScanType`; `anyValue` is Go's
`interface{}` fallback (unlisted raw types and 4+-dimensional arrays). -/
inductive ScanType where
  | nullBool
  | nullString
  | byteSlice
  | nullInt32
  | nullInt64
  | nullFloat64
  | nullTime
  | nullMap
  | nullSliceBool
  | nullSliceString
  | nullSliceInt64
  | nullSliceFloat64
  | nullSliceTime
  | nullSliceMap
  | nullSlice2Bool
  | nullSlice2String
  | nullSlice2Int64
  | nullSlice2Float64
  | nullSlice2Time
  | nullSlice2Map
  | nullSlice3Bool
  | nullSlice3String
  | nullSlice3Int64
  | nullSlice3Float64
  | nullSlice3Time
  | nullSlice3Map
  | anyValue
deriving DecidableEq, Repr

/-- The converter-construction error (`ErrInvalidResponseType`). -/
inductive ConverterError where
  | invalidResponseType
deriving DecidableEq, Repr

/-- String-like raw types sharing the `sql.NullString` scan type at the
top level of `getScanType`. -/
def stringLikeTypes : List String :=
  ["json", "char", "varchar", "interval year to month", "interval day to second",
   "decimal", "ipaddress", "uuid", "unknown"]

/-- String-like element types of arrays in `getScanType` (includes
`varbinary`, unlike the top level). -/
def sliceStringLikeTypes : List String :=
  ["json", "char", "varchar", "varbinary", "interval year to month",
   "interval day to second", "decimal", "ipaddress", "uuid", "unknown"]

/-- Integer-family raw types. -/
def intLikeTypes : List String := ["tinyint", "smallint", "integer", "bigint"]

/-- Float raw types. -/
def floatLikeTypes : List String := ["real", "double"]

/-- Temporal raw types. -/
def timeLikeTypes : List String :=
  ["date", "time", "time with time zone", "timestamp", "timestamp with time zone"]

/-- Innermost dispatch of `getScanType` for 3-level arrays. -/
def scanTypeLevel3 (t : String) : ScanType :=
  if t = "boolean" then ScanType.nullSlice3Bool
  else if t ∈ sliceStringLikeTypes then ScanType.nullSlice3String
  else if t ∈ intLikeTypes then ScanType.nullSlice3Int64
  else if t ∈ floatLikeTypes then ScanType.nullSlice3Float64
  else if t ∈ timeLikeTypes then ScanType.nullSlice3Time
  else if t = "map" then ScanType.nullSlice3Map
  else ScanType.anyValue

/-- Second-level dispatch of `getScanType` for nested arrays. -/
def scanTypeLevel2 (typeNames : List String) (t : String) : Except ConverterError ScanType :=
  if t = "boolean" then Except.ok ScanType.nullSlice2Bool
  else if t ∈ sliceStringLikeTypes then Except.ok ScanType.nullSlice2String
  else if t ∈ intLikeTypes then Except.ok ScanType.nullSlice2Int64
  else if t ∈ floatLikeTypes then Except.ok ScanType.nullSlice2Float64
  else if t ∈ timeLikeTypes then Except.ok ScanType.nullSlice2Time
  else if t = "map" then Except.ok ScanType.nullSlice2Map
  else if t = "array" then
    match typeNames.drop 3 with
    | [] => Except.error ConverterError.invalidResponseType
    | t3 :: _ => Except.ok (scanTypeLevel3 t3)
  else Except.ok ScanType.anyValue

/-- First-level dispatch of `getScanType` for array element types. -/
def scanTypeLevel1 (typeNames : List String) (t : String) : Except ConverterError ScanType :=
  if t = "boolean" then Except.ok ScanType.nullSliceBool
  else if t ∈ sliceStringLikeTypes then Except.ok ScanType.nullSliceString
  else if t ∈ intLikeTypes then Except.ok ScanType.nullSliceInt64
  else if t ∈ floatLikeTypes then Except.ok ScanType.nullSliceFloat64
  else if t ∈ timeLikeTypes then Except.ok ScanType.nullSliceTime
  else if t = "map" then Except.ok ScanType.nullSliceMap
  else if t = "array" then
    match typeNames.drop 2 with
    | [] => Except.error ConverterError.invalidResponseType
    | t2 :: _ => scanTypeLevel2 typeNames t2
  else Except.ok ScanType.anyValue

/-- `getScanType`: map the parsed type chain to a scan type. -/
def getScanType (typeNames : List String) : Except ConverterError ScanType :=
  match typeNames with
  | [] => Except.ok ScanType.anyValue
  | t0 :: restNames =>
    if t0 = "boolean" then Except.ok ScanType.nullBool
    else if t0 ∈ stringLikeTypes then Except.ok ScanType.nullString
    else if t0 = "varbinary" then Except.ok ScanType.byteSlice
    else if t0 = "tinyint" ∨ t0 = "smallint" ∨ t0 = "integer" then Except.ok ScanType.nullInt32
    else if t0 = "bigint" then Except.ok ScanType.nullInt64
    else if t0 ∈ floatLikeTypes then Except.ok ScanType.nullFloat64
    else if t0 ∈ timeLikeTypes then Except.ok ScanType.nullTime
    else if t0 = "map" then Except.ok ScanType.nullMap
    else if t0 = "array" then
      match restNames with
      | [] => Except.error ConverterError.invalidResponseType
      | t1 :: _ => scanTypeLevel1 typeNames t1
    else Except.ok ScanType.anyValue

/-- `optionalInt64`: a value plus a present flag. -/
structure OptionalInt64 where
  value : Int
  hasValue : Bool
deriving DecidableEq, Repr

/-- `newOptionalInt64`. -/
def newOptionalInt64 (v : Int) : OptionalInt64 := ⟨v, true⟩

/-- The Go zero value of `optionalInt64`. -/
def absentInt64 : OptionalInt64 := ⟨0, false⟩

/-- The converter produced by `newTypeConverter`. -/
structure TypeConverter where
  typeName : String
  parsedType : List String
  scanType : ScanType
  precision : OptionalInt64
  scale : OptionalInt64
  size : OptionalInt64
deriving DecidableEq, Repr

/-- The precision/scale/size extraction switch of `newTypeConverter`,
applied to a converter whose other fields are already set. -/
def extractTypeParameters (sig : TypeSignature) (tc : TypeConverter) :
    Except ConverterError TypeConverter :=
  if sig.rawType = "char" ∨ sig.rawType = "varchar" then
    match sig.arguments with
    | [] => Except.ok tc
    | a :: _ =>
      match a with
      | TArg.tLong v => Except.ok { tc with size := newOptionalInt64 v }
      | _ => Except.error ConverterError.invalidResponseType
  else if sig.rawType = "decimal" then
    match sig.arguments with
    | [] => Except.ok tc
    | a :: restArgs =>
      match a with
      | TArg.tLong p =>
        let tc1 := { tc with precision := newOptionalInt64 p }
        match restArgs with
        | [] => Except.ok tc1
        | b :: _ =>
          match b with
          | TArg.tLong s => Except.ok { tc1 with scale := newOptionalInt64 s }
          | _ => Except.error ConverterError.invalidResponseType
      | _ => Except.error ConverterError.invalidResponseType
  else if sig.rawType = "time" ∨ sig.rawType = "time with time zone" ∨
      sig.rawType = "timestamp" ∨ sig.rawType = "timestamp with time zone" then
    match sig.arguments with
    | [] => Except.ok tc
    | a :: _ =>
      match a with
      | TArg.tLong v => Except.ok { tc with precision := newOptionalInt64 v }
      | _ => Except.error ConverterError.invalidResponseType
  else Except.ok tc

/-- `newTypeConverter`: build the parsed type chain, resolve the scan type,
then extract size/precision/scale parameters. -/
def newTypeConverter (typeName : String) (sig : TypeSignature) :
    Except ConverterError TypeConverter :=
  let parsed := getNestedTypes [] sig
  match getScanType parsed with
  | Except.error e => Except.error e
  | Except.ok st =>
    extractTypeParameters sig
      { typeName := typeName
        parsedType := parsed
        scanType := st
        precision := absentInt64
        scale := absentInt64
        size := absentInt64 }

/-! ## The ordered segment streamer (`driverRows.startOrderedSegmentStreamer`)

Row values are never inspected by the streamer, so a row is abstracted to a
`List Int` (one opaque token per decoded value). -/

/-- A decoded segment: its absolute `rowOffset` and its decoded rows
(`queryData`). -/
structure DecodedSegment where
  rowOffset : Int
  queryData : List (List Int)
deriving DecidableEq, Repr

/-- The ordering used by the streamer's `slices.SortFunc`: compare
segments by `rowOffset`. -/
def sortSegments (l : List DecodedSegment) : List DecodedSegment :=
  List.insertionSort (fun a b => a.rowOffset ≤ b.rowOffset) l

/-- The emission loop of the streamer: pop sorted buffered segments while
the head's `rowOffset` equals the running expected offset, emitting each
popped segment's rows and advancing the offset by the number of rows
emitted. Returns the emitted batches, the new expected offset and the
remaining buffer. -/
def emitReady : List DecodedSegment → Int → List (List (List Int)) × Int × List DecodedSegment
  | [], off => ([], off, [])
  | s :: rest, off =>
    if s.rowOffset = off then
      let r := emitReady rest (off + (s.queryData.length : Int))
      (s.queryData :: r.1, r.2.1, r.2.2)
    else ([], off, s :: rest)

/-- The streamer's loop state: its reorder buffer, the running
`nextExpectedOffset`, the batches emitted so far on `spoolingRowsChannel`,
and whether the all-N-out-of-order-buffered error has been published. -/
structure StreamerState where
  buffer : List DecodedSegment
  nextExpectedOffset : Int
  emitted : List (List (List Int))
  errored : Bool
deriving DecidableEq, Repr

/-- The streamer's initial state. -/
def initStreamerState : StreamerState := ⟨[], 0, [], false⟩

/-- One iteration of the streamer loop on receipt of a decoded segment:
append to the buffer; on an offset mismatch publish the
all-N-out-of-order-buffered error if the buffer has reached the bound and
wait for more segments; on a match sort the buffer and emit the ready
prefix. -/
def streamerStep (bound : Nat) (st : StreamerState) (seg : DecodedSegment) : StreamerState :=
  let buf := st.buffer ++ [seg]
  if st.nextExpectedOffset ≠ seg.rowOffset then
    if bound ≤ buf.length then
      { st with buffer := buf, errored := true }
    else
      { st with buffer := buf }
  else
    let r := emitReady (sortSegments buf) st.nextExpectedOffset
    { buffer := r.2.2
      nextExpectedOffset := r.2.1
      emitted := st.emitted ++ r.1
      errored := st.errored }

/-- Run the streamer over the whole sequence of decoded-segment arrivals
(the order in which segments come out of `decodedSegments`). -/
def runStreamer (bound : Nat) (arrivals : List DecodedSegment) : StreamerState :=
  arrivals.foldl (streamerStep bound) initStreamerState

/-- `consistentFrom off segs = true` iff the segments of `segs`, in list
order, partition the row stream starting at row `off`: each segment's
`rowOffset` is `off` plus the rows of the preceding segments. -/
def consistentFrom : Int → List DecodedSegment → Bool
  | _, [] => true
  | off, s :: rest =>
    s.rowOffset == off && consistentFrom (off + (s.queryData.length : Int)) rest

/-- The offset reached after emitting all segments of `l` starting at
`off`. -/
def advanceOffset (off : Int) (l : List DecodedSegment) : Int :=
  off + (l.map (fun s => (s.queryData.length : Int))).sum

/-! ## The spooling pipeline throttle (`startSegmentDispatcher` and the
ordered streamer's token release)

The channel discipline is modelled as a small-step transition system over
the pipeline's state: the dispatcher consumes one `segmentThrottleCh`
token per admitted segment (blocking while the channel holds `bound`
tokens), the downloaders/decoders move a segment from in flight to the
streamer, and the streamer releases one token per segment whose rows it
emits. -/

/-- The state of one statement's spooling pipeline: the segments not yet
admitted by the dispatcher, the admitted segments still being
downloaded/decoded, the number of tokens in `segmentThrottleCh`, and the
streamer state. -/
structure PipelineState where
  pending : List DecodedSegment
  inFlight : List DecodedSegment
  throttle : Nat
  streamer : StreamerState
deriving DecidableEq, Repr

/-- How many throttle tokens the streamer releases when it processes
`seg`: one per segment emitted by that iteration. -/
def stepEmitCount (bound : Nat) (st : StreamerState) (seg : DecodedSegment) : Nat :=
  (streamerStep bound st seg).emitted.length - st.emitted.length

/-- One transition of the spooling pipeline. `dispatch` admits the next
segment after placing a token into `segmentThrottleCh` (possible only when
fewer than `bound` tokens are outstanding); `deliver` completes the
download/decode of some in-flight segment, hands it to the streamer, and
releases one token per segment the streamer emits. -/
inductive PipelineStep (bound : Nat) : PipelineState → PipelineState → Prop where
  | dispatch (s : DecodedSegment) (rest : List DecodedSegment) (st : PipelineState)
      (hp : st.pending = s :: rest) (hth : st.throttle < bound) :
      PipelineStep bound st
        ⟨rest, st.inFlight ++ [s], st.throttle + 1, st.streamer⟩
  | deliver (l₁ l₂ : List DecodedSegment) (s : DecodedSegment) (st : PipelineState)
      (hf : st.inFlight = l₁ ++ s :: l₂) :
      PipelineStep bound st
        ⟨st.pending, l₁ ++ l₂, st.throttle - stepEmitCount bound st.streamer s,
          streamerStep bound st.streamer s⟩

/-- Reachability of a pipeline state from the start of a statement whose
response listed the segments `segs`. -/
inductive PipelineReachable (bound : Nat) (segs : List DecodedSegment) : PipelineState → Prop where
  | init : PipelineReachable bound segs ⟨segs, [], 0, initStreamerState⟩
  | step (st st' : PipelineState) :
      PipelineReachable bound segs st → PipelineStep bound st st' →
      PipelineReachable bound segs st'

/-! ## Helper lemmas: prefixes and session keys -/

theorem startsWith_append (p t : List Char) : startsWith (p ++ t) p = true := by
  induction p with
  | nil => cases t <;> rfl
  | cons c cs ih => simp [startsWith, ih]

theorem startsWith_iff (s p : List Char) : startsWith s p = true ↔ ∃ t, s = p ++ t := by
  induction p generalizing s with
  | nil =>
    constructor
    · intro _
      exact ⟨s, rfl⟩
    · intro _
      cases s <;> rfl
  | cons c cs ih =>
    cases s with
    | nil =>
      simp [startsWith]
    | cons a as =>
      simp only [startsWith, Bool.and_eq_true, decide_eq_true_eq, ih]
      constructor
      · rintro ⟨rfl, t, rfl⟩
        exact ⟨t, rfl⟩
      · rintro ⟨t, ht⟩
        cases ht
        exact ⟨rfl, t, rfl⟩

theorem sessionKey_split (e : List Char) (he : '=' ∈ e) :
    ∃ t, e = sessionKey e ++ '=' :: t := by
  induction e with
  | nil => cases he
  | cons c cs ih =>
    by_cases hc : c = '='
    · subst hc
      exact ⟨cs, by simp [sessionKey]⟩
    · have hcs : '=' ∈ cs := by
        cases he with
        | head => exact absurd rfl hc
        | tail _ h => exact h
      obtain ⟨t, ht⟩ := ih hcs
      refine ⟨t, ?_⟩
      simp only [sessionKey, List.takeWhile_cons]
      rw [if_pos (by simpa using hc)]
      simpa [sessionKey] using congrArg (c :: ·) ht

theorem sessionKey_of_wellFormed (k t : List Char) (hk : '=' ∉ k) :
    sessionKey (k ++ '=' :: t) = k := by
  induction k with
  | nil => simp [sessionKey]
  | cons c cs ih =>
    have hc : c ≠ '=' := fun h => hk (h ▸ List.mem_cons_self c cs)
    have hcs : '=' ∉ cs := fun h => hk (List.mem_cons_of_mem c h)
    simp only [List.cons_append, sessionKey, List.takeWhile_cons]
    rw [if_pos (by simpa using hc)]
    simpa [sessionKey] using congrArg (c :: ·) (ih hcs)

theorem startsWith_key_iff (e k : List Char) (hk : '=' ∉ k) (he : '=' ∈ e) :
    startsWith e (k ++ ['=']) = true ↔ sessionKey e = k := by
  constructor
  · intro h
    obtain ⟨t, ht⟩ := (startsWith_iff e (k ++ ['='])).mp h
    subst ht
    simpa using sessionKey_of_wellFormed k t hk
  · intro h
    obtain ⟨t, ht⟩ := sessionKey_split e he
    rw [ht, h]
    have : k ++ '=' :: t = (k ++ ['=']) ++ t := by simp
    rw [this]
    exact startsWith_append (k ++ ['=']) t

/-! ## Claim theorems: configuration, codec, error mapping -/

/-- C6 counterexample: with `spooling_worker_count = 5` configured and
`max_out_of_order_segments` unset, the claim (after defaulting the bound
to 10) predicts no error, but `driverStmt.exec` compares against the raw
zero value and fails. -/
theorem execSpoolingConfigCheck_counterexample :
    execSpoolingConfigError (some 5) none = true ∧
    specSpoolingConfigError (some 5) none = false := by
  decide

/-- C6 (amended): `driverStmt.exec` fails with the configuration error
exactly when the raw configured worker count (0 when unset) exceeds the
raw configured reorder bound (0 when unset); the defaults 5 and 10 are
applied only later, in `startSpoolingProtocolWorkers`. In particular both
parameters unset never errors, with both set the error occurs iff
`workers > bound`, and a positive worker count with an unset bound errors
even though the claimed defaulting would accept it. -/
theorem execSpoolingConfigCheck_amended :
    execSpoolingConfigError none none = false ∧
    (∀ w b : Int, execSpoolingConfigError (some w) (some b) = decide (b < w)) ∧
    (∀ w : Int, 0 < w → execSpoolingConfigError (some w) none = true) ∧
    defaultedSpoolingWorkerCount 0 = defaultSpoolingDownloadWorkers ∧
    defaultedMaxOutOfOrderSegments 0 = defaultallowedOutOfOrder := by
  refine ⟨rfl, fun w b => ?_, fun w hw => ?_, rfl, rfl⟩
  · simp [execSpoolingConfigError, gt_iff_lt]
  · simpa [execSpoolingConfigError, gt_iff_lt] using hw

/-- C6 witness: the amended theorem applied at worker count 5, bound
unset. -/
theorem execSpoolingConfigCheck_amended_witness :
    execSpoolingConfigError (some 5) none = true :=
  execSpoolingConfigCheck_amended.2.2.1 5 (by decide)

/-- C8: mapping a decoded query response's server error: an empty
`errorName` is no error, `USER_CANCELLED` is the dedicated cancelled-query
error, and any other name is a query-failed error carrying the HTTP status
and the structured server error. -/
theorem handleResponseError_mapping (status : Nat) (e : ErrTrino) :
    (e.errorName = "" → handleResponseError status e = ResponseError.noError) ∧
    (e.errorName = "USER_CANCELLED" →
      handleResponseError status e = ResponseError.queryCancelled) ∧
    (e.errorName ≠ "" → e.errorName ≠ "USER_CANCELLED" →
      handleResponseError status e = ResponseError.queryFailed status e) := by
  refine ⟨fun h => ?_, fun h => ?_, fun h1 h2 => ?_⟩
  · simp [handleResponseError, h]
  · simp [handleResponseError, h]
  · simp [handleResponseError, h1, h2]

/-- C8 witness: the mapping applied to a concrete non-cancelled server
error. -/
theorem handleResponseError_mapping_witness :
    handleResponseError 200 ⟨"syntax error", "SYNTAX_ERROR", 1, "USER_ERROR"⟩ =
      ResponseError.queryFailed 200 ⟨"syntax error", "SYNTAX_ERROR", 1, "USER_ERROR"⟩ :=
  (handleResponseError_mapping 200 ⟨"syntax error", "SYNTAX_ERROR", 1, "USER_ERROR"⟩).2.2
    (by decide) (by decide)

/-- C7: `decodeSegment` produces a size-mismatch error whenever the raw
length differs from `segmentSize` (before any decompression), and whenever
`uncompressedSize` is nonzero and the decompressed length differs from
`uncompressedSize`; and when both lengths agree (or the segment is stored
uncompressed) no size-mismatch error is produced. -/
theorem decodeSegment_size_checks (cx : Codecs) (data : List Nat) (encoding : String)
    (m : SegmentMetadata) :
    ((data.length : Int) ≠ m.segmentSize →
      decodeSegment cx data encoding m =
        Except.error (SegmentError.sizeMismatch m.segmentSize (data.length : Int))) ∧
    (∀ d : List Nat, (data.length : Int) = m.segmentSize → m.uncompressedSize ≠ 0 →
      decompressRaw cx data encoding m = Except.ok d →
      (d.length : Int) ≠ m.uncompressedSize →
      decodeSegment cx data encoding m =
        Except.error (SegmentError.sizeMismatch m.uncompressedSize (d.length : Int))) ∧
    (∀ d : List Nat, (data.length : Int) = m.segmentSize →
      (m.uncompressedSize = 0 ∨
        (decompressRaw cx data encoding m = Except.ok d ∧
          (d.length : Int) = m.uncompressedSize)) →
      resultIsSizeMismatch (decodeSegment cx data encoding m) = false) := by
  have hlen' : ∀ h2 : (data.length : Int) = m.segmentSize,
      ¬ ((data.length : Int) ≠ m.segmentSize) := fun h2 => by simp [h2]
  refine ⟨fun h => ?_, fun d hlen hu hraw hd => ?_, fun d hlen hok => ?_⟩
  · simp [decodeSegment, h]
  · simp only [decodeSegment, if_neg (hlen' hlen), decompressSegment, if_neg hu,
      hraw, if_pos hd]
  · simp only [decodeSegment, if_neg (hlen' hlen)]
    rcases hok with hu | ⟨hraw, hd⟩
    · simp only [decompressSegment, if_pos hu]
      cases hjson : cx.jsonDecodeRows data <;>
        simp [hjson, resultIsSizeMismatch, SegmentError.isSizeMismatch]
    · by_cases hu : m.uncompressedSize = 0
      · simp only [decompressSegment, if_pos hu]
        cases hjson : cx.jsonDecodeRows data <;>
          simp [hjson, resultIsSizeMismatch, SegmentError.isSizeMismatch]
      · have hd' : ¬ ((d.length : Int) ≠ m.uncompressedSize) := by simp [hd]
        simp only [decompressSegment, if_neg hu, hraw, if_neg hd']
        cases hjson : cx.jsonDecodeRows d <;>
          simp [hjson, resultIsSizeMismatch, SegmentError.isSizeMismatch]

/-- C7 witness: a one-byte segment declared as two bytes is rejected with
the size-mismatch error. -/
theorem decodeSegment_size_checks_witness :
    decodeSegment trivialCodecs [7] "json" ⟨0, 1, 2, 0⟩ =
      Except.error (SegmentError.sizeMismatch 2 1) :=
  (decodeSegment_size_checks trivialCodecs [7] "json" ⟨0, 1, 2, 0⟩).1 (by decide)

/-- C10 counterexample: with `uncompressedSize = -1` (a nonzero value that
is not positive) the per-encoding switch is reached and the
unsupported-encoding error is produced, so the branches are not reachable
only when `uncompressedSize > 0`. -/
theorem decompressSegment_negative_counterexample :
    decompressSegment trivialCodecs [] "json" ⟨0, 0, 0, -1⟩ =
      Except.error (SegmentError.unsupportedEncoding "json") ∧
    ¬ (0 < (-1 : Int)) := by
  constructor
  · rfl
  · decide

/-- C10 (amended): when `uncompressedSize = 0`, `decompressSegment`
returns its input unchanged with no error for every encoding, recognized
or not; the unsupported-encoding error and the per-encoding branches are
reachable only when `uncompressedSize ≠ 0` (the code compares with zero,
so negative values also reach them). -/
theorem decompressSegment_zero_identity (cx : Codecs) (data : List Nat)
    (encoding : String) (m : SegmentMetadata) :
    (m.uncompressedSize = 0 → decompressSegment cx data encoding m = Except.ok data) ∧
    (resultIsUnsupportedEncoding (decompressSegment cx data encoding m) = true ↔
      m.uncompressedSize ≠ 0 ∧ encoding ≠ "json+zstd" ∧ encoding ≠ "json+lz4") := by
  constructor
  · intro h
    simp [decompressSegment, h]
  · by_cases hu : m.uncompressedSize = 0
    · simp [decompressSegment, hu, resultIsUnsupportedEncoding,
        SegmentError.isUnsupportedEncoding]
    · by_cases hz : encoding = "json+zstd"
      · subst hz
        cases hcx : cx.zstdDecompress data with
        | none =>
          simp [decompressSegment, decompressRaw, hu, hcx,
            resultIsUnsupportedEncoding, SegmentError.isUnsupportedEncoding]
        | some d =>
          by_cases hd : (d.length : Int) ≠ m.uncompressedSize <;>
            simp [decompressSegment, decompressRaw, hu, hcx, hd,
              resultIsUnsupportedEncoding, SegmentError.isUnsupportedEncoding]
      · by_cases hl : encoding = "json+lz4"
        · subst hl
          cases hcx : cx.lz4Decompress data m.uncompressedSize with
          | none =>
            simp [decompressSegment, decompressRaw, hu, hcx,
              resultIsUnsupportedEncoding, SegmentError.isUnsupportedEncoding]
          | some d =>
            by_cases hd : (d.length : Int) ≠ m.uncompressedSize <;>
              simp [decompressSegment, decompressRaw, hu, hcx, hd,
                resultIsUnsupportedEncoding, SegmentError.isUnsupportedEncoding]
        · simp [decompressSegment, decompressRaw, hu, hz, hl,
            resultIsUnsupportedEncoding, SegmentError.isUnsupportedEncoding]

/-- C10 witness: the identity case applied at a concrete inline (not
compressed) segment. -/
theorem decompressSegment_zero_identity_witness :
    decompressSegment trivialCodecs [1, 2, 3] "anything" ⟨0, 0, 3, 0⟩ =
      Except.ok [1, 2, 3] :=
  (decompressSegment_zero_identity trivialCodecs [1, 2, 3] "anything" ⟨0, 0, 3, 0⟩).1 rfl

/-! ## Claim theorems: session mutation and the retry loop -/

/-- C4: ingesting a 200 response with `Set-Session: k=v` appends the entry
to the outbound `Session` header, and a later 200 response with
`Clear-Session: k` removes every outbound `Session` entry whose key is
`k`; entries with other keys survive unchanged, and the other outbound
headers are untouched. (`k` is a session key, so it contains no `=`;
existing entries are well-formed `key=value` pairs.) -/
theorem setSession_then_clearSession (c : ConnHeaders) (k v : HeaderValue)
    (hk : '=' ∉ k) (hwf : ∀ e ∈ c.session, '=' ∈ e) :
    (ingestRespHeaders (ingestRespHeaders c (setSessionResp (k ++ '=' :: v)))
        (clearSessionResp k)).session =
      c.session.filter (fun e => !(sessionKey e == k)) ∧
    (∀ e ∈ (ingestRespHeaders (ingestRespHeaders c (setSessionResp (k ++ '=' :: v)))
        (clearSessionResp k)).session, sessionKey e ≠ k) ∧
    (ingestRespHeaders (ingestRespHeaders c (setSessionResp (k ++ '=' :: v)))
        (clearSessionResp k)).catalog = c.catalog ∧
    (ingestRespHeaders (ingestRespHeaders c (setSessionResp (k ++ '=' :: v)))
        (clearSessionResp k)).schema = c.schema ∧
    (ingestRespHeaders (ingestRespHeaders c (setSessionResp (k ++ '=' :: v)))
        (clearSessionResp k)).prepared = c.prepared := by
  have hsession :
      (ingestRespHeaders (ingestRespHeaders c (setSessionResp (k ++ '=' :: v)))
        (clearSessionResp k)).session =
      (c.session ++ [k ++ '=' :: v]).filter (fun e => !(startsWith e (k ++ ['=']))) := by
    simp [ingestRespHeaders, setSessionResp, clearSessionResp]
  have happ : startsWith (k ++ '=' :: v) (k ++ ['=']) = true := by
    have : k ++ '=' :: v = (k ++ ['=']) ++ v := by simp
    rw [this]
    exact startsWith_append (k ++ ['=']) v
  have hfilter :
      (c.session ++ [k ++ '=' :: v]).filter (fun e => !(startsWith e (k ++ ['=']))) =
      c.session.filter (fun e => !(sessionKey e == k)) := by
    rw [List.filter_append]
    have hlast : [k ++ '=' :: v].filter (fun e => !(startsWith e (k ++ ['=']))) = [] := by
      simp [List.filter, happ]
    rw [hlast, List.append_nil]
    apply List.filter_congr
    intro e he
    have hiff := startsWith_key_iff e k hk (hwf e he)
    by_cases hkey : sessionKey e = k
    · have : startsWith e (k ++ ['=']) = true := hiff.mpr hkey
      simp [this, hkey]
    · have : startsWith e (k ++ ['=']) = false := by
        cases hsw : startsWith e (k ++ ['=']) with
        | true => exact absurd (hiff.mp hsw) hkey
        | false => rfl
      simp [this, hkey]
  refine ⟨hsession.trans hfilter, ?_, ?_, ?_, ?_⟩
  · intro e he
    rw [hsession.trans hfilter] at he
    have := List.of_mem_filter he
    simpa using this
  · simp [ingestRespHeaders, setSessionResp, clearSessionResp]
  · simp [ingestRespHeaders, setSessionResp, clearSessionResp]
  · simp [ingestRespHeaders, setSessionResp, clearSessionResp]

/-- C4 witness: a concrete session with two entries; setting then clearing
key `a` removes both the old and the new `a=...` entries and keeps the
`b=2` entry. -/
theorem setSession_then_clearSession_witness :
    (ingestRespHeaders
        (ingestRespHeaders ⟨none, none, [['a', '=', '1'], ['b', '=', '2']], []⟩
          (setSessionResp (['a'] ++ '=' :: ['3'])))
        (clearSessionResp ['a'])).session = [['b', '=', '2']] := by
  have h := (setSession_then_clearSession
      ⟨none, none, [['a', '=', '1'], ['b', '=', '2']], []⟩ ['a'] ['3']
      (by decide) (by decide)).1
  rw [h]
  decide

/-- C5: for the main paging transport, `k` consecutive responses with
status 502, 503 or 504 followed by a 200 make `roundTrip` return the 200
response after ingesting its headers (retries are unbounded in `k`); the
loop returns the context's error when the context is cancelled; and the
retry delay starts at 100 ms, is multiplied by φ after each attempt, and
never exceeds 15 s (closed form `min(100 ms · φⁿ, 15 s)`). -/
theorem roundTrip_retry_policy (c : ConnHeaders) (es rest : List RTEvent)
    (h200 : RespHeaders)
    (hr : ∀ e ∈ es, ∃ s h, e = RTEvent.resp s h ∧ (s = 502 ∨ s = 503 ∨ s = 504))
    (hu : h200.hasUnsupported = false) :
    roundTripRun c (es ++ RTEvent.resp 200 h200 :: rest) =
      some (RTOutcome.ok, ingestRespHeaders c h200) ∧
    roundTripRun c (es ++ RTEvent.cancel :: rest) = some (RTOutcome.ctxError, c) ∧
    (∀ n, delayNs n = min (initialDelayNs * phiQ ^ n) maxDelayNs) ∧
    (∀ n, delayNs n ≤ maxDelayNs) := by
  have hskip : ∀ tail, roundTripRun c (es ++ tail) = roundTripRun c tail := by
    induction es with
    | nil => intro tail; rfl
    | cons e es' ih =>
      intro tail
      obtain ⟨s, h, rfl, hs⟩ := hr e (List.mem_cons_self e es')
      have h200ne : ¬ s = 200 := by rcases hs with rfl | rfl | rfl <;> decide
      have : roundTripRun c ((RTEvent.resp s h :: es') ++ tail) =
          roundTripRun c (es' ++ tail) := by
        show roundTripRun c (RTEvent.resp s h :: (es' ++ tail)) =
          roundTripRun c (es' ++ tail)
        simp only [roundTripRun, if_neg h200ne, if_pos hs]
      rw [this]
      exact ih (fun e he => hr e (List.mem_cons_of_mem _ he)) tail
  have hphi1 : (1 : ℚ) ≤ phiQ := by norm_num [phiQ]
  have hinit_pos : (0 : ℚ) < initialDelayNs := by norm_num [initialDelayNs]
  have hinit_le : initialDelayNs ≤ maxDelayNs := by
    norm_num [initialDelayNs, maxDelayNs]
  have hclosed : ∀ n, delayNs n = min (initialDelayNs * phiQ ^ n) maxDelayNs := by
    intro n
    induction n with
    | zero => simp [delayNs, min_eq_left hinit_le]
    | succ n ih =>
      have hpow_pos : (0 : ℚ) < initialDelayNs * phiQ ^ n :=
        mul_pos hinit_pos (pow_pos (lt_of_lt_of_le one_pos hphi1) n)
      rw [delayNs, ih]
      by_cases hcase : initialDelayNs * phiQ ^ n ≤ maxDelayNs
      · rw [min_eq_left hcase, pow_succ, ← mul_assoc]
      · push_neg at hcase
        rw [min_eq_right (le_of_lt hcase)]
        have hmax_pos : (0 : ℚ) < maxDelayNs := by norm_num [maxDelayNs]
        have h1 : maxDelayNs ≤ maxDelayNs * phiQ := le_mul_of_one_le_right
          (le_of_lt hmax_pos) hphi1
        have h2 : maxDelayNs ≤ initialDelayNs * phiQ ^ (n + 1) := by
          calc maxDelayNs ≤ initialDelayNs * phiQ ^ n :=
                le_of_lt hcase
            _ ≤ initialDelayNs * phiQ ^ n * phiQ :=
                le_mul_of_one_le_right (le_of_lt hpow_pos) hphi1
            _ = initialDelayNs * phiQ ^ (n + 1) := by rw [pow_succ, mul_assoc]
        rw [min_eq_right h1, min_eq_right h2]
  refine ⟨?_, ?_, hclosed, fun n => ?_⟩
  · rw [hskip]
    simp [roundTripRun, hu]
  · rw [hskip]
    rfl
  · rw [hclosed n]
    exact min_le_right _ _

/-- C5 witness: three 503 responses followed by a clean 200 return the 200
outcome with the connection headers untouched. -/
theorem roundTrip_retry_policy_witness :
    roundTripRun ⟨none, none, [], []⟩
      ([RTEvent.resp 503 {}, RTEvent.resp 503 {}, RTEvent.resp 503 {}] ++
        RTEvent.resp 200 {} :: []) =
      some (RTOutcome.ok, ⟨none, none, [], []⟩) :=
  (roundTrip_retry_policy ⟨none, none, [], []⟩
      [RTEvent.resp 503 {}, RTEvent.resp 503 {}, RTEvent.resp 503 {}] [] {}
      (by intro e he
          fin_cases he <;> exact ⟨503, {}, rfl, Or.inr (Or.inl rfl)⟩)
      rfl).1

/-! ## Claim theorems: converter parameter extraction -/

theorem nestedTypesAux_shape (types : List String) (raw : String) (args : List TArg) :
    ∃ t, nestedTypesAux types raw args = types ++ raw :: t := by
  induction types, raw, args using nestedTypesAux.induct with
  | case1 types raw r as ih =>
    obtain ⟨t, ht⟩ := ih
    refine ⟨r :: t, ?_⟩
    rw [nestedTypesAux, ht]
    simp
  | case2 types raw f r as ih =>
    obtain ⟨t, ht⟩ := ih
    refine ⟨r :: t, ?_⟩
    rw [nestedTypesAux, ht]
    simp
  | case3 types raw args h1 h2 =>
    refine ⟨[], ?_⟩
    rw [nestedTypesAux]
    · exact h1
    · exact h2

theorem getScanType_stringLike (raw : String) (hr : raw ∈ stringLikeTypes)
    (args : List TArg) :
    getScanType (getNestedTypes [] ⟨raw, args⟩) = Except.ok ScanType.nullString := by
  obtain ⟨t, ht⟩ := nestedTypesAux_shape [] raw args
  have hshape : getNestedTypes [] ⟨raw, args⟩ = raw :: t := ht
  rw [hshape]
  have hb : ¬ raw = "boolean" := by
    rintro rfl
    revert hr
    decide
  simp [getScanType, hb, hr]

theorem getScanType_timeFamily (raw : String) (hr : raw ∈ timeLikeTypes)
    (args : List TArg) :
    getScanType (getNestedTypes [] ⟨raw, args⟩) = Except.ok ScanType.nullTime := by
  obtain ⟨t, ht⟩ := nestedTypesAux_shape [] raw args
  have hshape : getNestedTypes [] ⟨raw, args⟩ = raw :: t := ht
  rw [hshape]
  fin_cases hr <;>
    simp [getScanType, stringLikeTypes, intLikeTypes, floatLikeTypes, timeLikeTypes]

theorem newTypeConverter_eq_extract (tn raw : String) (args : List TArg) (st : ScanType)
    (hscan : getScanType (getNestedTypes [] ⟨raw, args⟩) = Except.ok st) :
    newTypeConverter tn ⟨raw, args⟩ =
      extractTypeParameters ⟨raw, args⟩
        { typeName := tn
          parsedType := getNestedTypes [] ⟨raw, args⟩
          scanType := st
          precision := absentInt64
          scale := absentInt64
          size := absentInt64 } := by
  simp [newTypeConverter, hscan]

/-- C9: constructing a converter from a column type signature extracts the
first `LONG` argument of `char`/`varchar` as `size`, the first and second
`LONG` arguments of `decimal` as `precision` and `scale`, and the first
`LONG` argument of the four time/timestamp types as `precision`; for any
of these raw types, a leading argument of a non-`LONG` kind makes the
construction fail with `ErrInvalidResponseType`. -/
theorem newTypeConverter_parameter_extraction (tn raw : String) (args : List TArg) :
    ((raw = "char" ∨ raw = "varchar") →
      (∀ v rest, args = TArg.tLong v :: rest →
        ∃ tc, newTypeConverter tn ⟨raw, args⟩ = Except.ok tc ∧
          tc.size = newOptionalInt64 v) ∧
      (∀ a rest, args = a :: rest → a.isLong = false →
        newTypeConverter tn ⟨raw, args⟩ =
          Except.error ConverterError.invalidResponseType)) ∧
    (raw = "decimal" →
      (∀ p, args = [TArg.tLong p] →
        ∃ tc, newTypeConverter tn ⟨raw, args⟩ = Except.ok tc ∧
          tc.precision = newOptionalInt64 p ∧ tc.scale = absentInt64) ∧
      (∀ p s rest, args = TArg.tLong p :: TArg.tLong s :: rest →
        ∃ tc, newTypeConverter tn ⟨raw, args⟩ = Except.ok tc ∧
          tc.precision = newOptionalInt64 p ∧ tc.scale = newOptionalInt64 s) ∧
      (∀ a rest, args = a :: rest → a.isLong = false →
        newTypeConverter tn ⟨raw, args⟩ =
          Except.error ConverterError.invalidResponseType) ∧
      (∀ p b rest, args = TArg.tLong p :: b :: rest → b.isLong = false →
        newTypeConverter tn ⟨raw, args⟩ =
          Except.error ConverterError.invalidResponseType)) ∧
    ((raw = "time" ∨ raw = "time with time zone" ∨ raw = "timestamp" ∨
        raw = "timestamp with time zone") →
      (∀ v rest, args = TArg.tLong v :: rest →
        ∃ tc, newTypeConverter tn ⟨raw, args⟩ = Except.ok tc ∧
          tc.precision = newOptionalInt64 v) ∧
      (∀ a rest, args = a :: rest → a.isLong = false →
        newTypeConverter tn ⟨raw, args⟩ =
          Except.error ConverterError.invalidResponseType)) := by
  refine ⟨fun hraw => ⟨?_, ?_⟩, fun hraw => ⟨?_, ?_, ?_, ?_⟩, fun hraw => ⟨?_, ?_⟩⟩
  · rintro v rest rfl
    have hstr : raw ∈ stringLikeTypes := by
      rcases hraw with rfl | rfl <;> decide
    rw [newTypeConverter_eq_extract tn raw _ ScanType.nullString
      (getScanType_stringLike raw hstr _)]
    rcases hraw with rfl | rfl <;> simp [extractTypeParameters]
  · rintro a rest rfl halong
    have hstr : raw ∈ stringLikeTypes := by
      rcases hraw with rfl | rfl <;> decide
    rw [newTypeConverter_eq_extract tn raw _ ScanType.nullString
      (getScanType_stringLike raw hstr _)]
    rcases hraw with rfl | rfl <;>
      · cases a <;> simp_all [extractTypeParameters, TArg.isLong]
  · rintro p rfl
    subst hraw
    rw [newTypeConverter_eq_extract tn "decimal" _ ScanType.nullString
      (getScanType_stringLike "decimal" (by decide) _)]
    simp [extractTypeParameters, absentInt64]
  · rintro p s rest rfl
    subst hraw
    rw [newTypeConverter_eq_extract tn "decimal" _ ScanType.nullString
      (getScanType_stringLike "decimal" (by decide) _)]
    simp [extractTypeParameters]
  · rintro a rest rfl halong
    subst hraw
    rw [newTypeConverter_eq_extract tn "decimal" _ ScanType.nullString
      (getScanType_stringLike "decimal" (by decide) _)]
    cases a <;> simp_all [extractTypeParameters, TArg.isLong]
  · rintro p b rest rfl hblong
    subst hraw
    rw [newTypeConverter_eq_extract tn "decimal" _ ScanType.nullString
      (getScanType_stringLike "decimal" (by decide) _)]
    cases b <;> simp_all [extractTypeParameters, TArg.isLong]
  · rintro v rest rfl
    have htime : raw ∈ timeLikeTypes := by
      rcases hraw with rfl | rfl | rfl | rfl <;> decide
    rw [newTypeConverter_eq_extract tn raw _ ScanType.nullTime
      (getScanType_timeFamily raw htime _)]
    rcases hraw with rfl | rfl | rfl | rfl <;> simp [extractTypeParameters]
  · rintro a rest rfl halong
    have htime : raw ∈ timeLikeTypes := by
      rcases hraw with rfl | rfl | rfl | rfl <;> decide
    rw [newTypeConverter_eq_extract tn raw _ ScanType.nullTime
      (getScanType_timeFamily raw htime _)]
    rcases hraw with rfl | rfl | rfl | rfl <;>
      · cases a <;> simp_all [extractTypeParameters, TArg.isLong]

/-- C9 witness: `decimal(10, 2)` yields precision 10 and scale 2. -/
theorem newTypeConverter_parameter_extraction_witness :
    ∃ tc, newTypeConverter "decimal(10,2)" ⟨"decimal", [TArg.tLong 10, TArg.tLong 2]⟩ =
        Except.ok tc ∧
      tc.precision = newOptionalInt64 10 ∧ tc.scale = newOptionalInt64 2 := by
  obtain ⟨tc, h1, h2, h3⟩ :=
    (newTypeConverter_parameter_extraction "decimal(10,2)" "decimal"
        [TArg.tLong 10, TArg.tLong 2]).2.1 rfl |>.2.1 10 2 [] rfl
  exact ⟨tc, h1, h2, h3⟩

/-! ## Claim theorems: the out-of-order buffering bound -/

/-- Five one-row segments (segment `i` holds row `i` at offset `i`),
delivered to the streamer in decoded order 2, 0, 1, 4, 3. -/
def outOfOrderArrivals : List DecodedSegment :=
  [⟨2, [[2]]⟩, ⟨0, [[0]]⟩, ⟨1, [[1]]⟩, ⟨4, [[4]]⟩, ⟨3, [[3]]⟩]

/-- C2 counterexample: with the decoded arrival order [2, 0, 1, 4, 3] and
a bound of 2, the streamer never publishes the all-N-out-of-order-buffered
error: every mismatched arrival finds the buffer below the bound, and all
rows are emitted in offset order. -/
theorem orderedStreamer_bound2_counterexample :
    (runStreamer 2 outOfOrderArrivals).errored = false ∧
    (runStreamer 2 outOfOrderArrivals).emitted =
      [[[0]], [[1]], [[2]], [[3]], [[4]]] := by
  decide

/-- C2 (amended): the streamer publishes the all-N-out-of-order-buffered
error exactly when a segment whose `rowOffset` differs from
`nextExpectedOffset` brings the buffer to the bound or beyond; for the
decoded arrival order [2, 0, 1, 4, 3] a bound of 10 succeeds and a bound
of 2 also succeeds, while a bound of 2 does produce the error for an
arrival order with two consecutive out-of-order segments, such as
[2, 4, 0, 1, 3]. -/
theorem orderedStreamer_bound_error (bound : Nat) (st : StreamerState)
    (s : DecodedSegment) (hmismatch : st.nextExpectedOffset ≠ s.rowOffset)
    (hfull : bound ≤ st.buffer.length + 1) :
    (streamerStep bound st s).errored = true ∧
    ((runStreamer 10 outOfOrderArrivals).errored = false ∧
      (runStreamer 10 outOfOrderArrivals).emitted =
        [[[0]], [[1]], [[2]], [[3]], [[4]]]) ∧
    (runStreamer 2 outOfOrderArrivals).errored = false ∧
    (runStreamer 2 [⟨2, [[2]]⟩, ⟨4, [[4]]⟩, ⟨0, [[0]]⟩, ⟨1, [[1]]⟩, ⟨3, [[3]]⟩]).errored
      = true := by
  refine ⟨?_, by decide, by decide, by decide⟩
  simp [streamerStep, hmismatch, hfull]

/-- C2 witness: a mismatched second segment overflows a buffer bounded at
1 and sets the error. -/
theorem orderedStreamer_bound_error_witness :
    (streamerStep 1 initStreamerState ⟨5, [[7]]⟩).errored = true :=
  (orderedStreamer_bound_error 1 initStreamerState ⟨5, [[7]]⟩ (by decide) (by decide)).1

/-! ## Claim theorems: the pipeline throttle invariant -/

theorem emitReady_conservation (buf : List DecodedSegment) (off : Int) :
    (emitReady buf off).1.length + (emitReady buf off).2.2.length = buf.length := by
  induction buf generalizing off with
  | nil => rfl
  | cons s rest ih =>
    by_cases h : s.rowOffset = off
    · have hr := ih (off + (s.queryData.length : Int))
      simp only [emitReady, if_pos h, List.length_cons]
      omega
    · simp [emitReady, h]

theorem streamerStep_counts (bound : Nat) (st : StreamerState) (s : DecodedSegment) :
    (streamerStep bound st s).buffer.length + (streamerStep bound st s).emitted.length
      = st.buffer.length + 1 + st.emitted.length := by
  unfold streamerStep
  by_cases h : st.nextExpectedOffset ≠ s.rowOffset
  · by_cases h2 : bound ≤ st.buffer.length + 1 <;> simp [h, h2]
  · have hsortlen : (sortSegments (st.buffer ++ [s])).length = st.buffer.length + 1 := by
      have hp := (List.perm_insertionSort
        (fun a b => a.rowOffset ≤ b.rowOffset) (st.buffer ++ [s])).length_eq
      rw [sortSegments, hp]
      simp
    have hcons := emitReady_conservation (sortSegments (st.buffer ++ [s]))
      st.nextExpectedOffset
    simp only [if_neg h, List.length_append]
    omega

theorem streamerStep_emitted_mono (bound : Nat) (st : StreamerState) (s : DecodedSegment) :
    st.emitted.length ≤ (streamerStep bound st s).emitted.length := by
  unfold streamerStep
  by_cases h : st.nextExpectedOffset ≠ s.rowOffset
  · by_cases h2 : bound ≤ st.buffer.length + 1 <;> simp [h, h2]
  · simp [if_neg h]

/-- C3: along every reachable state of the spooling pipeline, the number
of tokens in `segmentThrottleCh` equals the number of resident segments
(in flight plus buffered in the streamer) — each admitted segment holds
exactly one token from dispatch until the streamer emits its rows — and it
never exceeds `max_out_of_order_segments`; consequently the resident
segment count never exceeds the bound. -/
theorem pipeline_throttle_bound (bound : Nat) (segs : List DecodedSegment)
    (st : PipelineState) (h : PipelineReachable bound segs st) :
    st.throttle = st.inFlight.length + st.streamer.buffer.length ∧
    st.throttle ≤ bound ∧
    st.inFlight.length + st.streamer.buffer.length ≤ bound := by
  induction h with
  | init => exact ⟨rfl, Nat.zero_le bound, Nat.zero_le bound⟩
  | step st st' hreach hstep ih =>
    obtain ⟨hinv, hle, _⟩ := ih
    cases hstep with
    | dispatch s rest st hp hth =>
      have h1 : (st.inFlight ++ [s]).length = st.inFlight.length + 1 := by simp
      refine ⟨?_, ?_, ?_⟩
      · show st.throttle + 1 = (st.inFlight ++ [s]).length + st.streamer.buffer.length
        omega
      · show st.throttle + 1 ≤ bound
        omega
      · show (st.inFlight ++ [s]).length + st.streamer.buffer.length ≤ bound
        omega
    | deliver l₁ l₂ s st hf =>
      have hcount := streamerStep_counts bound st.streamer s
      have hmono := streamerStep_emitted_mono bound st.streamer s
      have hlen : st.inFlight.length = l₁.length + l₂.length + 1 := by
        simp [hf]
        omega
      have h2 : (l₁ ++ l₂).length = l₁.length + l₂.length := by simp
      have hemit : stepEmitCount bound st.streamer s =
          (streamerStep bound st.streamer s).emitted.length -
            st.streamer.emitted.length := rfl
      refine ⟨?_, ?_, ?_⟩
      · show st.throttle - stepEmitCount bound st.streamer s =
          (l₁ ++ l₂).length + (streamerStep bound st.streamer s).buffer.length
        omega
      · show st.throttle - stepEmitCount bound st.streamer s ≤ bound
        omega
      · show (l₁ ++ l₂).length + (streamerStep bound st.streamer s).buffer.length ≤ bound
        omega

/-- C3 witness: the invariant applied at the initial pipeline state of a
one-segment statement with bound 2. -/
theorem pipeline_throttle_bound_witness :
    (0 : Nat) = 0 + 0 ∧ (0 : Nat) ≤ 2 ∧ 0 + 0 ≤ 2 :=
  pipeline_throttle_bound 2 [⟨0, [[0]]⟩] ⟨[⟨0, [[0]]⟩], [], 0, initStreamerState⟩
    PipelineReachable.init

/-! ## Claim theorems: ordered emission of the streamer

The plan: a list of segments that partitions the row stream
(`consistentFrom 0 segs`) has strictly increasing offsets; the streamer's
buffer is always (as a multiset) the set of arrived-but-unemitted
segments, its sorted form is a sublist of the canonical remainder, and the
emission loop consumes exactly the maximal ready prefix. -/

theorem consistent_lowerBound (segs : List DecodedSegment) (off : Int)
    (h : consistentFrom off segs = true)
    (hne : ∀ s ∈ segs, s.queryData ≠ []) :
    ∀ s ∈ segs, off ≤ s.rowOffset := by
  induction segs generalizing off with
  | nil => intro s hs; cases hs
  | cons a rest ih =>
    simp only [consistentFrom, Bool.and_eq_true, beq_iff_eq] at h
    obtain ⟨ha, hrest⟩ := h
    intro s hs
    cases hs with
    | head => omega
    | tail _ hs =>
      have hlen : 1 ≤ (a.queryData.length : Int) := by
        have : a.queryData ≠ [] := hne a (List.mem_cons_self a rest)
        have : 0 < a.queryData.length := List.length_pos.mpr this
        omega
      have := ih (off + (a.queryData.length : Int)) hrest
        (fun s hs => hne s (List.mem_cons_of_mem a hs)) s hs
      omega

theorem consistent_pairwise (segs : List DecodedSegment) (off : Int)
    (h : consistentFrom off segs = true)
    (hne : ∀ s ∈ segs, s.queryData ≠ []) :
    segs.Pairwise (fun a b => a.rowOffset < b.rowOffset) := by
  induction segs generalizing off with
  | nil => exact List.Pairwise.nil
  | cons a rest ih =>
    simp only [consistentFrom, Bool.and_eq_true, beq_iff_eq] at h
    obtain ⟨ha, hrest⟩ := h
    have hlen : 1 ≤ (a.queryData.length : Int) := by
      have : a.queryData ≠ [] := hne a (List.mem_cons_self a rest)
      have : 0 < a.queryData.length := List.length_pos.mpr this
      omega
    refine List.pairwise_cons.mpr ⟨fun b hb => ?_, ?_⟩
    · have := consistent_lowerBound rest (off + (a.queryData.length : Int)) hrest
        (fun s hs => hne s (List.mem_cons_of_mem a hs)) b hb
      omega
    · exact ih (off + (a.queryData.length : Int)) hrest
        (fun s hs => hne s (List.mem_cons_of_mem a hs))

theorem advanceOffset_nil (off : Int) : advanceOffset off [] = off := by
  simp [advanceOffset]

theorem advanceOffset_cons (off : Int) (s : DecodedSegment) (l : List DecodedSegment) :
    advanceOffset off (s :: l) = advanceOffset (off + (s.queryData.length : Int)) l := by
  simp [advanceOffset]
  ring

theorem consistent_append (l₁ l₂ : List DecodedSegment) (off : Int)
    (h : consistentFrom off (l₁ ++ l₂) = true) :
    consistentFrom (advanceOffset off l₁) l₂ = true := by
  induction l₁ generalizing off with
  | nil => simpa [advanceOffset_nil] using h
  | cons s l ih =>
    simp only [List.cons_append, consistentFrom, Bool.and_eq_true, beq_iff_eq] at h
    rw [advanceOffset_cons]
    exact ih (off + (s.queryData.length : Int)) h.2

theorem mem_offset_inj (segs : List DecodedSegment)
    (hpw : segs.Pairwise (fun a b => a.rowOffset < b.rowOffset))
    (a b : DecodedSegment) (ha : a ∈ segs) (hb : b ∈ segs)
    (hoff : a.rowOffset = b.rowOffset) : a = b := by
  induction segs with
  | nil => cases ha
  | cons x rest ih =>
    obtain ⟨hx, hrest⟩ := List.pairwise_cons.mp hpw
    cases ha with
    | head =>
      cases hb with
      | head => rfl
      | tail _ hb => exact absurd hoff (by have := hx b hb; omega)
    | tail _ ha =>
      cases hb with
      | head => exact absurd hoff (by have := hx a ha; omega)
      | tail _ hb => exact ih hrest ha hb

theorem subperm_sorted_sublist (l c : List DecodedSegment)
    (hsub : l.Subperm c)
    (hc : c.Pairwise (fun a b => a.rowOffset < b.rowOffset))
    (hl : l.Pairwise (fun a b => a.rowOffset ≤ b.rowOffset)) :
    l.Sublist c := by
  induction c generalizing l with
  | nil =>
    rw [List.subperm_nil.mp hsub]
  | cons x c' ih =>
    cases l with
    | nil => exact List.nil_sublist _
    | cons y l' =>
      by_cases hyx : y = x
      · subst hyx
        have hsub' : l'.Subperm c' := (List.subperm_cons y).mp hsub
        exact List.Sublist.cons₂ y (ih l' hsub' (List.pairwise_cons.mp hc).2
          (List.pairwise_cons.mp hl).2)
      · have hxl : x ∉ y :: l' := by
          intro hx
          have hysub : y ∈ x :: c' := hsub.subset (List.mem_cons_self y l')
          have hy' : y ∈ c' := by
            cases hysub with
            | head => exact absurd rfl hyx
            | tail _ h => exact h
          have h1 : x.rowOffset < y.rowOffset := (List.pairwise_cons.mp hc).1 y hy'
          have hx' : x ∈ l' := by
            cases hx with
            | head => exact absurd rfl (fun h => hyx h.symm)
            | tail _ h => exact h
          have h2 : y.rowOffset ≤ x.rowOffset := (List.pairwise_cons.mp hl).1 x hx'
          omega
        have hsub' : (y :: l').Subperm c' := by
          rw [List.subperm_ext_iff]
          intro a ha
          have := List.subperm_ext_iff.mp hsub a ha
          have hax : a ≠ x := fun h => hxl (h ▸ ha)
          rwa [List.count_cons_of_ne hax] at this
        exact (ih (y :: l') hsub' (List.pairwise_cons.mp hc).2 hl).cons x

theorem sortSegments_perm (l : List DecodedSegment) : (sortSegments l).Perm l :=
  List.perm_insertionSort _ l

instance : IsTotal DecodedSegment (fun a b => a.rowOffset ≤ b.rowOffset) :=
  ⟨fun a b => le_total a.rowOffset b.rowOffset⟩

instance : IsTrans DecodedSegment (fun a b => a.rowOffset ≤ b.rowOffset) :=
  ⟨fun _ _ _ h1 h2 => le_trans h1 h2⟩

theorem sortSegments_sorted (l : List DecodedSegment) :
    (sortSegments l).Pairwise (fun a b => a.rowOffset ≤ b.rowOffset) :=
  List.sorted_insertionSort _ l

theorem sortSegments_sublist (buf rest : List DecodedSegment)
    (hsub : buf.Subperm rest)
    (hrest : rest.Pairwise (fun a b => a.rowOffset < b.rowOffset)) :
    (sortSegments buf).Sublist rest := by
  have hsp : (sortSegments buf).Subperm rest := by
    obtain ⟨w, hw1, hw2⟩ := hsub
    exact ⟨w, hw1.trans (sortSegments_perm buf).symm, hw2⟩
  exact subperm_sorted_sublist (sortSegments buf) rest hsp hrest (sortSegments_sorted buf)

theorem emitReady_spec (B : List DecodedSegment) :
    ∀ (rest : List DecodedSegment) (off : Int),
    B.Sublist rest → consistentFrom off rest = true →
    rest.Pairwise (fun a b => a.rowOffset < b.rowOffset) →
    (∀ s ∈ rest, s.queryData ≠ []) →
    ∃ n, emitReady B off =
        ((rest.take n).map (fun s => s.queryData),
          advanceOffset off (rest.take n), B.drop n) ∧
      B.take n = rest.take n ∧
      (B.drop n).Sublist (rest.drop n) ∧
      (∀ s t, rest.drop n = s :: t → s ∉ B.drop n) := by
  induction B with
  | nil =>
    intro rest off _ _ _ _
    refine ⟨0, ?_, rfl, List.nil_sublist _, ?_⟩
    · simp [emitReady, advanceOffset_nil]
    · intro s t _
      simp
  | cons b bs ih =>
    intro rest off hsub hcons hpw hne
    by_cases hb : b.rowOffset = off
    · cases rest with
      | nil => simp at hsub
      | cons r rs =>
        simp only [consistentFrom, Bool.and_eq_true, beq_iff_eq] at hcons
        obtain ⟨hr, hcons'⟩ := hcons
        have hbr : b = r := by
          apply mem_offset_inj (r :: rs) hpw b r (hsub.subset (List.mem_cons_self b bs))
            (List.mem_cons_self r rs)
          omega
        subst hbr
        have hbs : bs.Sublist rs := hsub.of_cons_cons
        obtain ⟨n, hEq, htake, hsub', hhead⟩ := ih rs (off + (b.queryData.length : Int))
          hbs hcons' (List.pairwise_cons.mp hpw).2
          (fun s hs => hne s (List.mem_cons_of_mem b hs))
        refine ⟨n + 1, ?_, ?_, hsub', hhead⟩
        · simp only [emitReady, if_pos hb, hEq, List.take_succ_cons, List.map_cons,
            List.drop_succ_cons]
          rw [advanceOffset_cons]
        · simp only [List.take_succ_cons, htake]
    · refine ⟨0, ?_, rfl, hsub, ?_⟩
      · simp [emitReady, hb, advanceOffset_nil]
      · intro s t hrest
        subst hrest
        simp only [consistentFrom, Bool.and_eq_true, beq_iff_eq] at hcons
        intro hs
        cases hs with
        | head => exact hb hcons.1
        | tail _ hs =>
          have h1 : b.rowOffset < s.rowOffset := (List.pairwise_cons.mp
            ((hpw).sublist hsub)).1 s hs
          have h2 : off ≤ b.rowOffset :=
            consistent_lowerBound (s :: t) off
              (by simp [consistentFrom, hcons.1, hcons.2]) hne b
              (hsub.subset (List.mem_cons_self b bs))
          omega

theorem streamerStep_mismatch (bound : Nat) (st : StreamerState) (s : DecodedSegment)
    (h : st.nextExpectedOffset ≠ s.rowOffset) :
    (streamerStep bound st s).buffer = st.buffer ++ [s] ∧
    (streamerStep bound st s).nextExpectedOffset = st.nextExpectedOffset ∧
    (streamerStep bound st s).emitted = st.emitted := by
  unfold streamerStep
  rw [if_pos h]
  split <;> exact ⟨rfl, rfl, rfl⟩

theorem streamerStep_match (bound : Nat) (st : StreamerState) (s : DecodedSegment)
    (h : st.nextExpectedOffset = s.rowOffset) :
    streamerStep bound st s =
      { buffer := (emitReady (sortSegments (st.buffer ++ [s])) st.nextExpectedOffset).2.2
        nextExpectedOffset :=
          (emitReady (sortSegments (st.buffer ++ [s])) st.nextExpectedOffset).2.1
        emitted := st.emitted ++
          (emitReady (sortSegments (st.buffer ++ [s])) st.nextExpectedOffset).1
        errored := st.errored } := by
  unfold streamerStep
  rw [if_neg (fun hh => hh h)]

theorem streamer_loop (bound : Nat) (segs : List DecodedSegment)
    (hpw : segs.Pairwise (fun a b => a.rowOffset < b.rowOffset))
    (hne : ∀ s ∈ segs, s.queryData ≠ []) :
    ∀ (remaining : List DecodedSegment) (st : StreamerState)
      (pre rest : List DecodedSegment),
      segs = pre ++ rest →
      consistentFrom st.nextExpectedOffset rest = true →
      st.emitted = pre.map (fun s => s.queryData) →
      (st.buffer ++ remaining).Perm rest →
      (∀ s t, rest = s :: t → s ∉ st.buffer) →
      (List.foldl (streamerStep bound) st remaining).emitted =
          segs.map (fun s => s.queryData) ∧
      (List.foldl (streamerStep bound) st remaining).buffer = [] := by
  intro remaining
  induction remaining with
  | nil =>
    intro st pre rest hsegs hcons hemit hperm hhead
    have hbperm : st.buffer.Perm rest := by simpa using hperm
    have hrest : rest = [] := by
      cases rest with
      | nil => rfl
      | cons s t =>
        exact absurd (hbperm.symm.subset (List.mem_cons_self s t))
          (hhead s t rfl)
    subst hrest
    have hbuf : st.buffer = [] := hbperm.eq_nil
    simp only [List.foldl_nil]
    exact ⟨by rw [hemit, hsegs]; simp, hbuf⟩
  | cons a rem ih =>
    intro st pre rest hsegs hcons hemit hperm hhead
    have hrestpw : rest.Pairwise (fun a b => a.rowOffset < b.rowOffset) := by
      rw [hsegs] at hpw
      exact (List.pairwise_append.mp hpw).2.1
    have hrestne : ∀ s ∈ rest, s.queryData ≠ [] := by
      intro s hs
      exact hne s (by rw [hsegs]; exact List.mem_append_right pre hs)
    simp only [List.foldl_cons]
    by_cases hmatch : st.nextExpectedOffset = a.rowOffset
    · -- the arriving segment is the next expected one: sort and emit
      have hmem : a ∈ rest := hperm.subset (by simp)
      cases rest with
      | nil => cases hmem
      | cons r rs =>
        have hconsr := hcons
        simp only [consistentFrom, Bool.and_eq_true, beq_iff_eq] at hconsr
        have har : a = r :=
          mem_offset_inj (r :: rs) hrestpw a r hmem (List.mem_cons_self r rs)
            (by omega)
        have hsubperm : (st.buffer ++ [a]).Subperm (r :: rs) := by
          have h1 : (st.buffer ++ [a]).Sublist ((st.buffer ++ [a]) ++ rem) :=
            List.sublist_append_left _ _
          have h2 : ((st.buffer ++ [a]) ++ rem).Perm (r :: rs) := by
            rw [List.append_assoc]
            simpa using hperm
          exact h1.subperm.trans h2.subperm
        have hBsub : (sortSegments (st.buffer ++ [a])).Sublist (r :: rs) :=
          sortSegments_sublist _ _ hsubperm hrestpw
        obtain ⟨n, hEq, htake, hsub', hhead'⟩ :=
          emitReady_spec (sortSegments (st.buffer ++ [a])) (r :: rs)
            st.nextExpectedOffset hBsub hcons hrestpw hrestne
        rw [streamerStep_match bound st a hmatch]
        refine ih _ (pre ++ (r :: rs).take n) ((r :: rs).drop n) ?_ ?_ ?_ ?_ ?_
        · rw [hsegs, List.append_assoc, List.take_append_drop]
        · show consistentFrom (emitReady (sortSegments (st.buffer ++ [a]))
            st.nextExpectedOffset).2.1 ((r :: rs).drop n) = true
          rw [hEq]
          exact consistent_append _ _ st.nextExpectedOffset
            (by rwa [List.take_append_drop])
        · show st.emitted ++ (emitReady (sortSegments (st.buffer ++ [a]))
            st.nextExpectedOffset).1 = _
          rw [hEq, hemit, List.map_append]
        · show ((emitReady (sortSegments (st.buffer ++ [a]))
            st.nextExpectedOffset).2.2 ++ rem).Perm ((r :: rs).drop n)
          rw [hEq]
          have hBperm : (sortSegments (st.buffer ++ [a])).Perm (st.buffer ++ [a]) :=
            sortSegments_perm _
          have hsplit : sortSegments (st.buffer ++ [a]) =
              (r :: rs).take n ++ (sortSegments (st.buffer ++ [a])).drop n := by
            conv_lhs => rw [← List.take_append_drop n (sortSegments (st.buffer ++ [a]))]
            rw [htake]
          have hfull : ((r :: rs).take n ++
              ((sortSegments (st.buffer ++ [a])).drop n ++ rem)).Perm
              ((r :: rs).take n ++ (r :: rs).drop n) := by
            rw [← List.append_assoc, ← hsplit, List.take_append_drop]
            have hstep1 : (sortSegments (st.buffer ++ [a]) ++ rem).Perm
                ((st.buffer ++ [a]) ++ rem) := hBperm.append_right rem
            have hstep2 : ((st.buffer ++ [a]) ++ rem).Perm (r :: rs) := by
              rw [List.append_assoc]
              simpa using hperm
            exact hstep1.trans hstep2
          exact (List.perm_append_left_iff _).mp hfull
        · intro s t ht
          show s ∉ (emitReady (sortSegments (st.buffer ++ [a])) st.nextExpectedOffset).2.2
          rw [hEq]
          exact hhead' s t ht
    · -- out-of-order segment: buffered, nothing emitted
      obtain ⟨hbuf, hoff, hemit'⟩ := streamerStep_mismatch bound st a hmatch
      refine ih _ pre rest hsegs ?_ ?_ ?_ ?_
      · rwa [hoff]
      · rwa [hemit']
      · rw [hbuf, List.append_assoc]
        simpa using hperm
      · intro s t hrest
        rw [hbuf]
        have hs1 : s ∉ st.buffer := hhead s t hrest
        have hsoff : s.rowOffset = st.nextExpectedOffset := by
          rw [hrest] at hcons
          simp only [consistentFrom, Bool.and_eq_true, beq_iff_eq] at hcons
          omega
        have hsa : s ≠ a := fun h => hmatch (by rw [h] at hsoff; omega)
        simp [hs1, hsa]

/-- C1: for every completed spooled query — all decoded segments (a
permutation of a consistent partition of the row stream starting at offset
0, each segment nonempty) delivered to the ordered streamer — the batches
emitted on `spoolingRowsChannel` are exactly the decoded segments sorted
by `rowOffset`, in strictly increasing offset order, each emitted when its
`rowOffset` equals the running `nextExpectedOffset`; the buffer drains
completely. -/
theorem orderedStreamer_emits_in_offset_order (bound : Nat)
    (segs arrivals : List DecodedSegment)
    (hperm : arrivals.Perm segs) (hcons : consistentFrom 0 segs = true)
    (hne : ∀ s ∈ segs, s.queryData ≠ []) :
    (runStreamer bound arrivals).emitted =
      (sortSegments arrivals).map (fun s => s.queryData) ∧
    (runStreamer bound arrivals).buffer = [] := by
  have hpw := consistent_pairwise segs 0 hcons hne
  have hloop := streamer_loop bound segs hpw hne arrivals initStreamerState [] segs
    rfl hcons rfl (by simpa using hperm)
    (fun s t _ hs => by simp [initStreamerState] at hs)
  obtain ⟨hemit, hbuf⟩ := hloop
  have hsorteq : sortSegments arrivals = segs := by
    have h1 : (sortSegments arrivals).Subperm segs :=
      ((sortSegments_perm arrivals).trans hperm).subperm
    have h2 : (sortSegments arrivals).Sublist segs :=
      subperm_sorted_sublist _ _ h1 hpw (sortSegments_sorted arrivals)
    exact h2.eq_of_length (((sortSegments_perm arrivals).trans hperm).length_eq)
  rw [show runStreamer bound arrivals =
    List.foldl (streamerStep bound) initStreamerState arrivals from rfl]
  rw [hemit, hbuf, hsorteq]
  exact ⟨rfl, rfl⟩

/-- C1 witness: the out-of-order arrival order [2, 0, 1, 4, 3] of five
one-row segments is emitted as offsets 0, 1, 2, 3, 4. -/
theorem orderedStreamer_emits_in_offset_order_witness :
    (runStreamer 10 outOfOrderArrivals).emitted =
      (sortSegments outOfOrderArrivals).map (fun s => s.queryData) ∧
    (runStreamer 10 outOfOrderArrivals).buffer = [] :=
  orderedStreamer_emits_in_offset_order 10
    [⟨0, [[0]]⟩, ⟨1, [[1]]⟩, ⟨2, [[2]]⟩, ⟨3, [[3]]⟩, ⟨4, [[4]]⟩]
    outOfOrderArrivals (by decide) (by decide) (by decide)

end Trino
